import Mathlib

/-!
# AgentFlow execution core: a shallow embedding

This file embeds the agent execution core of the `agentflow` repository
(package `pkg/types`, `internal/provider`, `internal/agent`,
`internal/subagent`) in Lean 4 and proves properties of it.

Go machine integers are modelled as `Int`; Go maps as association lists
with overwrite-on-insert semantics; Go channels of stream chunks as the
list of values delivered before the channel closes; fallible Go calls
returning `(T, error)` as `Except String T`.  Network and wall-clock
effects are abstracted as explicit parameters: a provider's HTTP round
trip becomes a function argument, `time.Now()` values become `Nat`
arguments.  Go `map[string]string` references held by agents are made
explicit through a small heap (`MetaHeap`) so that aliasing statements
("mutating the clone's metadata never changes the original's") are
meaningful.
-/

namespace AgentFlow

/-! ## pkg/types: shared value types -/

/-- Go `types.Message` from `pkg/types/types.go`. -/
structure Message where
  role : String
  content : String
deriving Repr, DecidableEq

/-- Go `types.CompletionRequest` from `pkg/types/types.go`.  `Temperature` is
modelled as an `Int` pair (numerator of a fixed-point value is irrelevant
to every claim; only `> 0` tests occur in the source, so an `Int` carries
the needed structure). -/
structure CompletionRequest where
  model : String
  messages : List Message
  temperature : Int := 0
  maxTokens : Int := 0
  stream : Bool := false
deriving Repr, DecidableEq

/-- Go `types.CompletionResponse` from `pkg/types/types.go`. -/
structure CompletionResponse where
  content : String
  model : String
  finishReason : String
  tokensUsed : Int
deriving Repr, DecidableEq

/-- Go `types.StreamChunk` from `pkg/types/types.go`; the Go `error` field is
an `Option String`. -/
structure StreamChunk where
  content : String
  done : Bool
  error : Option String := none
deriving Repr, DecidableEq

deriving instance DecidableEq for Except

/-! ## Association-list model of Go string maps -/

/-- Insert with overwrite: the Go `m[k] = v` map update, on an
association list whose keys are unique in first-occurrence order. -/
def mapInsert {α : Type} : List (String × α) → String → α → List (String × α)
  | [], k, v => [(k, v)]
  | (k', v') :: rest, k, v =>
      if k' = k then (k, v) :: rest else (k', v') :: mapInsert rest k v

/-- Go map lookup `m[k]` (comma-ok form): first binding of `k`. -/
def mapLookup {α : Type} : List (String × α) → String → Option α
  | [], _ => none
  | (k', v') :: rest, k => if k' = k then some v' else mapLookup rest k

/-! ## internal/provider: registry and model resolution -/

/-- A provider reference, abstracted to an opaque identifier (the Go
`Provider` interface value); the registry stores these by name. -/
abbrev ProviderId := Nat

/-- Go `Registry.ResolveModel`'s scanning loop from
`internal/provider/provider.go`: walk the spec left to right, split at
the first `'/'`, look the left part up in the registry, and return the
provider together with everything right of that first slash.  `pre` is
the accumulated prefix (the loop's `spec[:i]`). -/
def resolveLoop (reg : List (String × ProviderId)) (pre : List Char) :
    List Char → Option (ProviderId × List Char)
  | [] => none
  | c :: rest =>
      if c = '/' then
        match mapLookup reg (String.mk pre) with
        | some p => some (p, rest)
        | none => none
      else
        resolveLoop reg (pre ++ [c]) rest

/-- Go `Registry.ResolveModel` from `internal/provider/provider.go`: parses
`"provider/model"` and resolves the provider.  The Go `(nil, "", false)`
returns are `none`. -/
def ResolveModel (reg : List (String × ProviderId)) (spec : List Char) :
    Option (ProviderId × List Char) :=
  resolveLoop reg [] spec

/-! ## internal/provider: SupportsModel for both provider families -/

/-- Go `OllamaProvider.SupportsModel`: the loop over the configured model
list returns `true` on a match, and the function returns `true` anyway
after the loop ("Ollama can pull any model"). -/
def ollamaSupportsModel : List String → String → Bool
  | [], _ => true
  | m :: rest, model => if m = model then true else ollamaSupportsModel rest model

/-- Go `OpenAICompatProvider.SupportsModel`: membership in the configured
model list. -/
def openAISupportsModel : List String → String → Bool
  | [], _ => false
  | m :: rest, model => if m = model then true else openAISupportsModel rest model

/-! ## internal/provider: non-streaming wire responses -/

/-- The decoded `ollamaResponse` wire object (family A). -/
structure OllamaWireResponse where
  model : String
  messageRole : String
  messageContent : String
  done : Bool
  doneReason : String
  promptEvalCount : Int
  evalCount : Int
deriving Repr, DecidableEq

/-- One element of `openAIResponse.Choices` (family B). -/
structure OpenAIChoice where
  index : Int
  messageRole : String
  messageContent : String
  deltaRole : String
  deltaContent : String
  finishReason : String
deriving Repr, DecidableEq

/-- The `openAIResponse.Usage` block (family B). -/
structure OpenAIUsage where
  promptTokens : Int
  completionTokens : Int
  totalTokens : Int
deriving Repr, DecidableEq

/-- The decoded `openAIResponse` wire object (family B). -/
structure OpenAIWireResponse where
  id : String
  model : String
  choices : List OpenAIChoice
  usage : OpenAIUsage
deriving Repr, DecidableEq

/-- Go `OllamaProvider.Complete`, after the HTTP round trip: `status` is the
HTTP status code and `decoded` the outcome of decoding the body.
Mirrors the tail of the Go function: non-200 status is an error carrying
the body, a decode failure is an error, otherwise the wire response maps
onto the uniform `CompletionResponse` with
`TokensUsed = PromptEvalCount + EvalCount`. -/
def ollamaCompleteDecode (status : Int) (body : String)
    (decoded : Except String OllamaWireResponse) :
    Except String CompletionResponse :=
  if status ≠ 200 then
    .error ("ollama error " ++ toString status ++ ": " ++ body)
  else
    match decoded with
    | .error e => .error ("decode response: " ++ e)
    | .ok w =>
        .ok { content := w.messageContent
              model := w.model
              finishReason := w.doneReason
              tokensUsed := w.promptEvalCount + w.evalCount }

/-- Go `OpenAICompatProvider.Complete`, after the HTTP round trip: non-200
status is an error, a decode failure is an error, an empty choices list
is the "no choices in response" error, otherwise `choices[0].message`
maps onto the uniform response with `TokensUsed = Usage.TotalTokens`. -/
def openAICompleteDecode (name : String) (status : Int) (body : String)
    (decoded : Except String OpenAIWireResponse) :
    Except String CompletionResponse :=
  if status ≠ 200 then
    .error (name ++ " error " ++ toString status ++ ": " ++ body)
  else
    match decoded with
    | .error e => .error ("decode response: " ++ e)
    | .ok w =>
        match w.choices with
        | [] => .error "no choices in response"
        | c :: _ =>
            .ok { content := c.messageContent
                  model := w.model
                  finishReason := c.finishReason
                  tokensUsed := w.usage.totalTokens }

/-! ## internal/provider: streaming producers

A stream's channel is modelled as the list of `StreamChunk` values the
producer goroutine delivers before closing the channel. -/

/-- Go `OllamaProvider.Stream`'s producer loop (family A): the response body
is a sequence of `json.Decoder.Decode` outcomes; the end of the list is
`io.EOF`.  A decode error that is not EOF yields one chunk with `Error`
set and ends the stream; a decoded object yields a content/done chunk,
and a `done=true` object ends the stream. -/
def ollamaStreamRun : List (Except String OllamaWireResponse) → List StreamChunk
  | [] => []
  | .error e :: _ => [{ content := "", done := false, error := some e }]
  | .ok w :: rest =>
      let c : StreamChunk := { content := w.messageContent, done := w.done, error := none }
      if w.done then [c] else c :: ollamaStreamRun rest

/-- Go `strings.HasPrefix`, over character sequences (scanner lines are
modelled as `List Char`). -/
def leadMatches : List Char → List Char → Bool
  | _, [] => true
  | [], _ :: _ => false
  | c :: cs, p :: ps => if c = p then leadMatches cs ps else false

/-- The SSE payload marker `"data: "`. -/
def sseDataMarker : List Char := "data: ".toList

/-- The SSE stream-end sentinel `"[DONE]"`. -/
def doneSentinel : List Char := "[DONE]".toList

/-- Go `OpenAICompatProvider.Stream`'s producer loop (family B): `lines` are
the values `bufio.Scanner` delivers, `scanErr` the value of
`scanner.Err()` once scanning stops, and `parse` stands for
`json.Unmarshal` on a `data: ` payload.  A non-`data: ` line is skipped;
`data: [DONE]` yields a `Done` chunk and ends the stream; a payload that
fails to unmarshal is skipped (the Go `continue`); a payload with no
choices sends nothing; otherwise `choices[0].delta` becomes a chunk whose
`Done` flag is `finish_reason ≠ ""`.  A scanner error after the last line
yields one chunk with `Error` set. -/
def openAIStreamRun (parse : List Char → Except String OpenAIWireResponse) :
    List (List Char) → Option String → List StreamChunk
  | [], scanErr =>
      match scanErr with
      | some e => [{ content := "", done := false, error := some e }]
      | none => []
  | line :: rest, scanErr =>
      if leadMatches line sseDataMarker then
        let data := line.drop sseDataMarker.length
        if data = doneSentinel then
          [{ content := "", done := true, error := none }]
        else
          match parse data with
          | .error _ => openAIStreamRun parse rest scanErr
          | .ok w =>
              match w.choices with
              | [] => openAIStreamRun parse rest scanErr
              | c :: _ =>
                  { content := c.deltaContent, done := c.finishReason ≠ "", error := none }
                    :: openAIStreamRun parse rest scanErr
      else
        openAIStreamRun parse rest scanErr

/-! ## internal/skill: the collaborator interface the Agent consumes -/

/-- A loaded skill (`skill.Skill`), restricted to the fields the Agent
reads. -/
structure Skill where
  name : String
  content : String
deriving Repr, DecidableEq

/-- The skill loader's map; `Loader.Get` is `mapLookup`.  The Go
`*skill.Loader` may be nil, hence the `Option` at use sites. -/
abbrev SkillMap := List (String × Skill)

/-! ## internal/agent: the Agent

The Go agent holds a `map[string]string` metadata reference; map values
are reference types in Go, so metadata cells live in an explicit heap and
the agent stores the index of its cell. -/

/-- The metadata heap: cell `r` holds the contents of one Go
`map[string]string`. -/
abbrev MetaHeap := List (List (String × String))

/-- Contents of the metadata map at reference `r` (out-of-range reads
return the empty map; valid agents always hold in-range references). -/
def metaAt (h : MetaHeap) (r : Nat) : List (String × String) :=
  h.getD r []

/-- Allocate a fresh metadata cell (`make(map[string]string)` seeded with
`m`): returns the grown heap and the new reference. -/
def metaAlloc (h : MetaHeap) (m : List (String × String)) : MetaHeap × Nat :=
  (h ++ [m], h.length)

/-- Write `k ↦ v` into the cell at `r` (the Go `a.metadata[key] = value`). -/
def metaSet (h : MetaHeap) (r : Nat) (k v : String) : MetaHeap :=
  h.set r (mapInsert (metaAt h r) k v)

/-- Go `agent.Agent` from `internal/agent/agent.go`.  The provider interface
value is abstracted to an opaque name (its behaviour enters as a function
argument at each call site); `createdAt` is an opaque clock value. -/
structure Agent where
  id : String
  provider : String
  model : String
  systemPrompt : String
  messages : List Message
  metaRef : Nat
  createdAt : Nat := 0
deriving Repr, DecidableEq

/-- Go `agent.Config`.  `metadata` is the reference to the caller's map
(`none` is the nil map, for which `agent.New` allocates a fresh one). -/
structure AgentConfig where
  id : String
  provider : String
  model : String
  systemPrompt : String := ""
  metadata : Option Nat := none
deriving Repr, DecidableEq

/-- Go `agent.New` from `internal/agent/agent.go`, on a heap: a nil metadata
map is replaced by a freshly allocated empty one, and a non-empty system
prompt seeds the history with the system message.  The generated-id
branch (`cfg.ID == ""`) takes the nonce `nonce` in place of
`time.Now().UnixNano()`. -/
def Agent.newIn (h : MetaHeap) (cfg : AgentConfig) (nonce : Nat) : MetaHeap × Agent :=
  let id := if cfg.id = "" then "agent-" ++ toString nonce else cfg.id
  let (h', r) :=
    match cfg.metadata with
    | none => metaAlloc h []
    | some r => (h, r)
  (h',
   { id := id
     provider := cfg.provider
     model := cfg.model
     systemPrompt := cfg.systemPrompt
     messages :=
       if cfg.systemPrompt ≠ "" then
         [{ role := "system", content := cfg.systemPrompt }]
       else []
     metaRef := r
     createdAt := nonce })

/-- Go `Agent.AddMessage`. -/
def Agent.addMessage (a : Agent) (role content : String) : Agent :=
  { a with messages := a.messages ++ [{ role := role, content := content }] }

/-- Go `Agent.ClearHistory`: truncate to the system message, or to nothing
when no system prompt is configured. -/
def Agent.clearHistory (a : Agent) : Agent :=
  if a.systemPrompt ≠ "" then
    { a with messages := [{ role := "system", content := a.systemPrompt }] }
  else
    { a with messages := [] }

/-- Go `Agent.SetMetadata`: mutates the agent's metadata map in the heap
(the agent value itself is unchanged — the map is shared by reference). -/
def Agent.setMetadata (h : MetaHeap) (a : Agent) (k v : String) : MetaHeap :=
  metaSet h a.metaRef k v

/-- Go `Agent.GetMetadata` (a missing key reads as `""`, the Go zero value). -/
def Agent.getMetadata (h : MetaHeap) (a : Agent) (k : String) : String :=
  (mapLookup (metaAt h a.metaRef) k).getD ""

/-- Go `Agent.Run` from `internal/agent/agent.go`.  `complete` is
`a.provider.Complete` with the ambient context applied: the single
network round trip, as a function of the request.  The user message is
appended first, the request is built from the then-current history, and
the assistant reply is appended only on success. -/
def Agent.run (complete : CompletionRequest → Except String CompletionResponse)
    (a : Agent) (message : String) : Agent × Except String CompletionResponse :=
  let a1 := a.addMessage "user" message
  let req : CompletionRequest := { model := a1.model, messages := a1.messages }
  match complete req with
  | .error e => (a1, .error ("completion: " ++ e))
  | .ok resp => (a1.addMessage "assistant" resp.content, .ok resp)

/-- Go `Agent.RunWithSkill` from `internal/agent/agent.go`.  `skills` is the
agent's bound loader (`none` is the Go nil loader).  With a nil loader
the call delegates to `Run` unchanged; with a bound loader an unresolved
name is the "skill not found" error, and a resolved skill's content is
prefixed to the message before delegating to `Run`. -/
def Agent.runWithSkill (complete : CompletionRequest → Except String CompletionResponse)
    (skills : Option SkillMap) (a : Agent) (skillName message : String) :
    Agent × Except String CompletionResponse :=
  match skills with
  | none => a.run complete message
  | some sm =>
      match mapLookup sm skillName with
      | none => (a, .error ("skill not found: " ++ skillName))
      | some sk =>
          let enhanced :=
            "# Skill: " ++ sk.name ++ "\n\n" ++ sk.content ++ "\n\n---\n\n" ++ message
          a.run complete enhanced

/-- The consumer goroutine inside `Agent.Stream`: forwards chunks,
accumulating contents in `acc`; a chunk with `Error` set is forwarded and
ends the loop; every chunk with `Done = true` appends the accumulated
content as an assistant message (the loop then continues — there is no
`break` after `Done`).  Returns the agent after the stream drains and
the chunks forwarded on the output channel. -/
def Agent.streamConsume (a : Agent) (acc : String) :
    List StreamChunk → Agent × List StreamChunk
  | [] => (a, [])
  | c :: rest =>
      if c.error.isSome then
        (a, [c])
      else
        let acc' := acc ++ c.content
        let a' := if c.done then a.addMessage "assistant" acc' else a
        let (a'', out) := Agent.streamConsume a' acc' rest
        (a'', c :: out)

/-- Go `Agent.Stream` from `internal/agent/agent.go`, end to end: append the
user message, build the streaming request from the current history, let
the provider's producer (`producer`) deliver its chunks, and run the
consumer goroutine over them. -/
def Agent.streamRun (producer : CompletionRequest → List StreamChunk)
    (a : Agent) (message : String) : Agent × List StreamChunk :=
  let a1 := a.addMessage "user" message
  let req : CompletionRequest := { model := a1.model, messages := a1.messages, stream := true }
  Agent.streamConsume a1 "" (producer req)

/-- Go `Agent.Clone` from `internal/agent/agent.go`, on a heap: same
provider/model/system-prompt binding, a freshly allocated metadata cell
holding a copy of the original's contents, and a history reset to just
the system message (empty when none is configured).  The generated-id
branch (`newID == ""`) takes `nonce` in place of `time.Now().UnixNano()`. -/
def Agent.cloneIn (h : MetaHeap) (a : Agent) (newId : String) (nonce : Nat) :
    MetaHeap × Agent :=
  let id := if newId = "" then a.id ++ "-clone-" ++ toString nonce else newId
  let (h', r) := metaAlloc h (metaAt h a.metaRef)
  (h',
   { id := id
     provider := a.provider
     model := a.model
     systemPrompt := a.systemPrompt
     messages :=
       if a.systemPrompt ≠ "" then
         [{ role := "system", content := a.systemPrompt }]
       else []
     metaRef := r
     createdAt := nonce })

/-! ## internal/subagent: Task, Result and the Pool -/

/-- Go `subagent.Task` from `internal/subagent/pool.go`. -/
structure Task where
  id : String
  description : String
  skillName : String := ""
  message : String
  metadata : List (String × String) := []
deriving Repr, DecidableEq

/-- Go `subagent.Result`.  `response`/`error` mirror the Go
`(*CompletionResponse, error)` pair; `duration` and `startedAt` are
opaque clock values. -/
structure Result where
  taskId : String
  agentId : String
  response : Option CompletionResponse
  error : Option String
  duration : Nat
  startedAt : Nat
deriving Repr, DecidableEq

/-- Go `subagent.Pool`'s state: the configuration fields fixed at `NewPool`
plus the two mutable fields (`activeCount`, `results`) that the pool
mutex protects.  `skills` is the bound loader (`none` = nil). -/
structure PoolState where
  providerName : String
  model : String
  skills : Option SkillMap := none
  maxAgents : Int
  active : Int
  results : List (String × Result)
deriving Repr, DecidableEq

/-- Go `subagent.PoolConfig`. -/
structure PoolConfig where
  providerName : String
  model : String
  skills : Option SkillMap := none
  maxAgents : Int := 0
  systemPrompt : String := ""
deriving Repr, DecidableEq

/-- The pool's configured system prompt travels with the state. -/
structure PoolStateFull extends PoolState where
  systemPrompt : String
deriving Repr, DecidableEq

/-- Go `subagent.NewPool`: a non-positive `MaxAgents` defaults to 5; the
counters start at zero with an empty results map. -/
def PoolState.new (cfg : PoolConfig) : PoolStateFull :=
  { providerName := cfg.providerName
    model := cfg.model
    skills := cfg.skills
    maxAgents := if cfg.maxAgents ≤ 0 then 5 else cfg.maxAgents
    active := 0
    results := []
    systemPrompt := cfg.systemPrompt }

/-- The pool-exhausted error text of `Pool.Spawn`
(`fmt.Errorf("pool exhausted: max %d agents", p.maxAgents)`). -/
def poolExhaustedMsg (maxAgents : Int) : String :=
  "pool exhausted: max " ++ toString maxAgents ++ " agents"

/-- The admission critical section at the top of `Pool.Spawn` (under the
pool mutex): at capacity the call is rejected and the state is unchanged;
otherwise `activeCount` is incremented.  The `Bool` is `true` iff the
spawn was admitted. -/
def spawnAdmit (s : PoolStateFull) : PoolStateFull × Bool :=
  if s.active ≥ s.maxAgents then (s, false)
  else ({ s with active := s.active + 1 }, true)

/-- The deferred `activeCount--` critical section of `Pool.Spawn`. -/
def spawnRelease (s : PoolStateFull) : PoolStateFull :=
  { s with active := s.active - 1 }

/-- The result-store critical section of `Pool.Spawn`
(`p.results[task.ID] = result`, last write wins). -/
def storeResult (s : PoolStateFull) (taskId : String) (r : Result) : PoolStateFull :=
  { s with results := mapInsert s.results taskId r }

/-- Go `Pool.ClearResults`. -/
def clearResults (s : PoolStateFull) : PoolStateFull :=
  { s with results := [] }

/-- The body of an admitted `Pool.Spawn`, between the increment and the
deferred decrement: build the fresh agent (id
`subagent-<taskID>-<nano>`, system prompt defaulting to the generic
task-description prompt), run `RunWithSkill` when the task names a skill
and `Run` otherwise, and wrap the outcome as a `Result`.  `now` stands
for the `time.Now()` nanosecond value and `dur` for the measured
duration; the freshly made metadata map of the spawned agent is
allocated on a scratch heap (the run never reads it). -/
def runTask (complete : CompletionRequest → Except String CompletionResponse)
    (s : PoolStateFull) (t : Task) (now dur : Nat) : Result :=
  let agentId := "subagent-" ++ t.id ++ "-" ++ toString now
  let systemPrompt :=
    if s.systemPrompt = "" then
      "You are a focused subagent executing task: " ++ t.description
    else s.systemPrompt
  let (h0, mref) := metaAlloc [] t.metadata
  let (_, a) := Agent.newIn h0
    { id := agentId
      provider := s.providerName
      model := s.model
      systemPrompt := systemPrompt
      metadata := some mref } now
  let (_, out) :=
    if t.skillName ≠ "" then
      a.runWithSkill complete s.skills t.skillName t.message
    else
      a.run complete t.message
  { taskId := t.id
    agentId := agentId
    response := out.toOption
    error := match out with | .ok _ => none | .error e => some e
    duration := dur
    startedAt := now }

/-- Go `Pool.Spawn` from `internal/subagent/pool.go`, as one sequential
execution: admission check, increment, run, result store, deferred
decrement (the store precedes the decrement because the `defer` fires at
return).  At capacity the call returns immediately with no `Result` and
the pool-exhausted error.  The returned error mirrors `Result.Error`. -/
def poolSpawn (complete : CompletionRequest → Except String CompletionResponse)
    (now dur : Nat) (s : PoolStateFull) (t : Task) :
    PoolStateFull × Option Result × Option String :=
  if s.active ≥ s.maxAgents then
    (s, none, some (poolExhaustedMsg s.maxAgents))
  else
    let s1 := { s with active := s.active + 1 }
    let r := runTask complete s1 t now dur
    let s2 := storeResult s1 t.id r
    let s3 := spawnRelease s2
    (s3, some r, r.error)

/-! ### Reachable pool states

The pool mutex serializes the critical sections, so a concurrent
execution of any number of `Spawn` / `ClearResults` calls is a sequence
of these atomic events.  A `release` only ever comes from an admitted
spawn still in flight, hence its guard. -/

/-- States of a pool reachable from `NewPool cfg` under any interleaving
of admission checks, in-flight completions, result stores and clears. -/
inductive PoolReachable (cfg : PoolConfig) : PoolStateFull → Prop
  | init : PoolReachable cfg (PoolState.new cfg)
  | acquire {s} : PoolReachable cfg s → PoolReachable cfg (spawnAdmit s).1
  | release {s} : PoolReachable cfg s → 0 < s.active →
      PoolReachable cfg (spawnRelease s)
  | store {s} (taskId : String) (r : Result) : PoolReachable cfg s →
      PoolReachable cfg (storeResult s taskId r)
  | clear {s} : PoolReachable cfg s → PoolReachable cfg (clearResults s)

/-! ### SpawnBatch as an explicit interleaving machine

`Pool.SpawnBatch` starts one goroutine per task, each calling `Spawn`
and writing `results[idx]`; the wait-group join returns once every
goroutine has finished.  Each goroutine's `Spawn` decomposes into its
admission critical section (`start`) and, if admitted, the rest of the
call (`finish`: run, store, deferred decrement, slot write).  A schedule
is an arbitrary list of such events. -/

/-- Progress of one batch goroutine: not yet at its admission check,
admitted and mid-flight, or finished with its `results[idx]` slot value
(`none` is the nil `*Result` a rejected `Spawn` returns). -/
inductive TaskPhase where
  | notStarted : TaskPhase
  | running : TaskPhase
  | finished : Option Result → TaskPhase
deriving Repr, DecidableEq

/-- State of a `SpawnBatch` execution: the shared pool plus each
goroutine's phase (`phases[i]` belongs to `tasks[i]`). -/
structure BatchState where
  pool : PoolStateFull
  phases : List TaskPhase
deriving Repr, DecidableEq

/-- A scheduling event: goroutine `i` reaches its admission check, or an
admitted goroutine `i` completes its task. -/
inductive BatchEvent where
  | start : Nat → BatchEvent
  | finish : Nat → BatchEvent
deriving Repr, DecidableEq

/-- Go `SpawnBatch`'s initial state: every goroutine is before its admission
check and every slot unwritten. -/
def batchInit (s : PoolStateFull) (tasks : List Task) : BatchState :=
  { pool := s, phases := tasks.map (fun _ => TaskPhase.notStarted) }

/-- One scheduling step of the `SpawnBatch` execution.  `start i`: the
goroutine for `tasks[i]` runs `Spawn`'s admission section; at capacity
`Spawn` returns `(nil, err)` at once, so the goroutine writes a nil slot
and finishes, otherwise `activeCount` is incremented and the task is in
flight.  `finish i`: an in-flight goroutine computes its result, stores
it in the results map, releases its slot in the counter, and writes its
`results[idx]`.  Events not matching a goroutine in the required phase
change nothing. -/
def batchStep (complete : CompletionRequest → Except String CompletionResponse)
    (now dur : Nat) (tasks : List Task) (st : BatchState) :
    BatchEvent → BatchState
  | .start i =>
      match st.phases.get? i, tasks.get? i with
      | some TaskPhase.notStarted, some _ =>
          if st.pool.active ≥ st.pool.maxAgents then
            { st with phases := st.phases.set i (TaskPhase.finished none) }
          else
            { pool := { st.pool with active := st.pool.active + 1 }
              phases := st.phases.set i TaskPhase.running }
      | _, _ => st
  | .finish i =>
      match st.phases.get? i, tasks.get? i with
      | some TaskPhase.running, some t =>
          let r := runTask complete st.pool t now dur
          { pool := spawnRelease (storeResult st.pool t.id r)
            phases := st.phases.set i (TaskPhase.finished (some r)) }
      | _, _ => st

/-- Run a whole schedule. -/
def batchRun (complete : CompletionRequest → Except String CompletionResponse)
    (now dur : Nat) (s : PoolStateFull) (tasks : List Task)
    (sched : List BatchEvent) : BatchState :=
  sched.foldl (batchStep complete now dur tasks) (batchInit s tasks)

/-- The slice `SpawnBatch` returns once the wait group joins: slot `i`
holds what goroutine `i` wrote (`none` both for a rejected spawn's nil
result and — before the join, which requires all phases finished — for
an unwritten slot). -/
def batchSlots (st : BatchState) : List (Option Result) :=
  st.phases.map (fun ph =>
    match ph with
    | TaskPhase.finished r => r
    | _ => none)

/-! ## Theorems -/

/-- Helper: the scanning loop resolves a spec whose remaining part starts
with a slash-free prefix followed by `'/'` by looking up the accumulated
name. -/
theorem resolveLoop_split (reg : List (String × ProviderId)) (acc pre post : List Char)
    (hpre : '/' ∉ pre) :
    resolveLoop reg acc (pre ++ '/' :: post)
      = match mapLookup reg (String.mk (acc ++ pre)) with
        | some p => some (p, post)
        | none => none := by
  induction pre generalizing acc with
  | nil =>
      simp [resolveLoop]
  | cons c cs ih =>
      have hc : c ≠ '/' := fun h => hpre (h ▸ List.mem_cons_self c cs)
      have hcs : '/' ∉ cs := fun h => hpre (List.mem_cons_of_mem c h)
      have hstep : resolveLoop reg acc ((c :: cs) ++ '/' :: post)
          = resolveLoop reg (acc ++ [c]) (cs ++ '/' :: post) := by
        simp [resolveLoop, hc]
      rw [hstep, ih (acc ++ [c]) hcs]
      have hassoc : acc ++ [c] ++ cs = acc ++ c :: cs := by simp
      rw [hassoc]

/-- Helper: the scanning loop returns `none` on a slash-free spec. -/
theorem resolveLoop_no_slash (reg : List (String × ProviderId)) (acc spec : List Char)
    (hspec : '/' ∉ spec) : resolveLoop reg acc spec = none := by
  induction spec generalizing acc with
  | nil => rfl
  | cons c cs ih =>
      have hc : c ≠ '/' := fun h => hspec (h ▸ List.mem_cons_self c cs)
      have hcs : '/' ∉ cs := fun h => hspec (List.mem_cons_of_mem c h)
      simp only [resolveLoop, if_neg hc, ih (acc ++ [c]) hcs]

/-- C8: `Registry.ResolveModel` splits at the first `'/'`: the left side
is the provider name looked up in the registry, the entire right side
(which may itself contain `'/'`) is the model identifier; an unknown
provider name or a spec without `'/'` resolves to nothing. -/
theorem resolveModel_spec (reg : List (String × ProviderId)) (pre post spec : List Char)
    (hpre : '/' ∉ pre) (hspec : '/' ∉ spec) :
    (∀ p, mapLookup reg (String.mk pre) = some p →
        ResolveModel reg (pre ++ '/' :: post) = some (p, post))
    ∧ (mapLookup reg (String.mk pre) = none →
        ResolveModel reg (pre ++ '/' :: post) = none)
    ∧ ResolveModel reg spec = none := by
  refine ⟨?_, ?_, ?_⟩
  · intro p hp
    unfold ResolveModel
    rw [resolveLoop_split reg [] pre post hpre]
    simp [hp]
  · intro hp
    unfold ResolveModel
    rw [resolveLoop_split reg [] pre post hpre]
    simp [hp]
  · exact resolveLoop_no_slash reg [] spec hspec

/-- Witness for C8: `"ollama/llama3.3:70b"` resolves to the registered
provider and the slash-bearing model id is returned whole; an unknown
provider or a slash-free spec resolves to nothing. -/
theorem resolveModel_spec_witness :
    ResolveModel [("ollama", 0), ("groq", 1)]
        ("ollama".toList ++ '/' :: "llama3.3:70b".toList) = some (0, "llama3.3:70b".toList)
    ∧ ResolveModel [("ollama", 0)] ("unknown".toList ++ '/' :: "model".toList) = none
    ∧ ResolveModel [("ollama", 0)] "nomodel".toList = none :=
  ⟨(resolveModel_spec [("ollama", 0), ("groq", 1)] "ollama".toList "llama3.3:70b".toList []
      (by decide) (by decide)).1 0 (by decide),
   (resolveModel_spec [("ollama", 0)] "unknown".toList "model".toList []
      (by decide) (by decide)).2.1 (by decide),
   (resolveModel_spec [("ollama", 0)] [] [] "nomodel".toList
      (by decide) (by decide)).2.2⟩

/-- C10: `OllamaProvider.SupportsModel` accepts every model string, also
those absent from the configured list, while
`OpenAICompatProvider.SupportsModel` accepts exactly the members of its
configured list. -/
theorem supportsModel_spec (models : List String) (m : String) :
    ollamaSupportsModel models m = true
    ∧ (openAISupportsModel models m = true ↔ m ∈ models) := by
  constructor
  · induction models with
    | nil => rfl
    | cons x xs ih =>
        unfold ollamaSupportsModel
        by_cases h : x = m
        · simp [h]
        · simp [h, ih]
  · induction models with
    | nil => simp [openAISupportsModel]
    | cons x xs ih =>
        unfold openAISupportsModel
        by_cases h : x = m
        · simp [h]
        · have hm : m ≠ x := fun hmx => h hmx.symm
          simp [h, hm, ih]

/-- C7: a successful non-streaming completion surfaces token usage as
`prompt_eval_count + eval_count` for family A (Ollama) and as
`usage.total_tokens` for family B (OpenAI-compatible). -/
theorem tokensUsed_spec (name bodyA bodyB : String) (statusA statusB : Int)
    (w : OllamaWireResponse) (v : OpenAIWireResponse) (rA rB : CompletionResponse)
    (hA : ollamaCompleteDecode statusA bodyA (.ok w) = .ok rA)
    (hB : openAICompleteDecode name statusB bodyB (.ok v) = .ok rB) :
    rA.tokensUsed = w.promptEvalCount + w.evalCount
    ∧ rB.tokensUsed = v.usage.totalTokens := by
  constructor
  · unfold ollamaCompleteDecode at hA
    by_cases hs : statusA ≠ 200
    · rw [if_pos hs] at hA
      simp at hA
    · rw [if_neg hs] at hA
      simp only [Except.ok.injEq] at hA
      rw [← hA]
  · unfold openAICompleteDecode at hB
    by_cases hs : statusB ≠ 200
    · rw [if_pos hs] at hB
      simp at hB
    · rw [if_neg hs] at hB
      have hB2 : (match v.choices with
          | [] => (.error "no choices in response" : Except String CompletionResponse)
          | c :: _ =>
              .ok { content := c.messageContent, model := v.model,
                    finishReason := c.finishReason,
                    tokensUsed := v.usage.totalTokens }) = .ok rB := hB
      cases hv : v.choices with
      | nil => rw [hv] at hB2; simp at hB2
      | cons c cs =>
          rw [hv] at hB2
          simp only [Except.ok.injEq] at hB2
          rw [← hB2]

/-- Witness for C7: concrete 200-status wire responses for both families
map onto the uniform response with the family-specific token sum. -/
theorem tokensUsed_spec_witness :
    (7 : Int) = (3 : Int) + 4 ∧ (42 : Int) = 42 :=
  tokensUsed_spec "groq" "" "" 200 200
    { model := "llama3.3:70b", messageRole := "assistant", messageContent := "hi",
      done := true, doneReason := "stop", promptEvalCount := 3, evalCount := 4 }
    { id := "1", model := "m",
      choices := [{ index := 0, messageRole := "assistant", messageContent := "hi",
                    deltaRole := "", deltaContent := "", finishReason := "stop" }],
      usage := { promptTokens := 30, completionTokens := 12, totalTokens := 42 } }
    { content := "hi", model := "llama3.3:70b", finishReason := "stop", tokensUsed := 7 }
    { content := "hi", model := "m", finishReason := "stop", tokensUsed := 42 }
    rfl rfl

/-- A mock backend for concrete runs: every request completes with
content `"hi"` and finish reason `"stop"` (the spec's example scenario). -/
def mockComplete : CompletionRequest → Except String CompletionResponse :=
  fun _ => .ok { content := "hi", model := "test-model", finishReason := "stop", tokensUsed := 100 }

/-- A concrete agent with no system prompt, bound to the mock provider. -/
def sampleAgent : Agent :=
  { id := "a1", provider := "mock", model := "test-model", systemPrompt := "",
    messages := [], metaRef := 0, createdAt := 0 }

/-- The `CompletionRequest` that `Agent.Run` hands to the provider: the
agent's model and the entire current history with the new user message
appended. -/
def runRequest (a : Agent) (text : String) : CompletionRequest :=
  { model := a.model
    messages := a.messages ++ [{ role := "user", content := text }] }

/-- Helper: `Agent.run` unfolded as one match over the provider call on
the full-history request. -/
theorem run_eq (complete : CompletionRequest → Except String CompletionResponse)
    (a : Agent) (text : String) :
    a.run complete text
      = match complete (runRequest a text) with
        | .error e => (a.addMessage "user" text, .error ("completion: " ++ e))
        | .ok resp =>
            ((a.addMessage "user" text).addMessage "assistant" resp.content, .ok resp) :=
  rfl

/-- C4: `Agent.Run` appends the user message and builds the request from
the entire current history; on provider success the history gains exactly
the user and assistant messages, the appended assistant content being the
response content; on provider failure only the user message is gained. -/
theorem run_history_spec (complete : CompletionRequest → Except String CompletionResponse)
    (a : Agent) (text : String) :
    (runRequest a text).messages = a.messages ++ [{ role := "user", content := text }]
    ∧ (∀ resp, complete (runRequest a text) = .ok resp →
        (a.run complete text).1.messages
            = a.messages ++ [{ role := "user", content := text },
                             { role := "assistant", content := resp.content }]
          ∧ (a.run complete text).2 = .ok resp)
    ∧ (∀ e, complete (runRequest a text) = .error e →
        (a.run complete text).1.messages
            = a.messages ++ [{ role := "user", content := text }]
          ∧ (a.run complete text).2 = .error ("completion: " ++ e)) := by
  refine ⟨rfl, ?_, ?_⟩
  · intro resp hok
    rw [run_eq, hok]
    constructor
    · simp [Agent.addMessage]
    · rfl
  · intro e herr
    rw [run_eq, herr]
    exact ⟨rfl, rfl⟩

/-- Witness for C4 (the spec's example scenario): running `"hello"`
against the mock backend yields content `"hi"` and a two-message history
with roles `[user, assistant]`. -/
theorem run_history_spec_witness :
    (sampleAgent.run mockComplete "hello").1.messages
      = [{ role := "user", content := "hello" }, { role := "assistant", content := "hi" }]
    ∧ (sampleAgent.run mockComplete "hello").2
      = .ok { content := "hi", model := "test-model", finishReason := "stop", tokensUsed := 100 } := by
  have h := (run_history_spec mockComplete sampleAgent "hello").2.1
    { content := "hi", model := "test-model", finishReason := "stop", tokensUsed := 100 } rfl
  exact ⟨h.1.trans (by decide), h.2⟩

/-- Counterexample for C2: with no skill loader bound (`skills = none`),
`RunWithSkill` does not return a "skill not found" error — it silently
falls back to a plain `Run`, calling the provider and appending the turn
to history. -/
theorem runWithSkill_nil_loader_counterexample :
    Agent.runWithSkill mockComplete none sampleAgent "tdd" "hello"
      = ({ sampleAgent with
            messages := [{ role := "user", content := "hello" },
                         { role := "assistant", content := "hi" }] },
         .ok { content := "hi", model := "test-model", finishReason := "stop", tokensUsed := 100 })
    ∧ ∀ e, (Agent.runWithSkill mockComplete none sampleAgent "tdd" "hello").2 ≠ .error e := by
  constructor
  · rfl
  · intro e h
    simp [Agent.runWithSkill, Agent.run, Agent.addMessage, mockComplete] at h

/-- C2 as amended: when a loader is bound and the name does not resolve,
`RunWithSkill` returns the "skill not found" error without touching the
history and without calling the provider (the outcome is the same for
every provider behaviour); when no loader is bound, it falls back to a
plain `Run` instead of failing. -/
theorem runWithSkill_spec (complete : CompletionRequest → Except String CompletionResponse)
    (skills : SkillMap) (a : Agent) (skillName text : String)
    (h : mapLookup skills skillName = none) :
    Agent.runWithSkill complete (some skills) a skillName text
      = (a, .error ("skill not found: " ++ skillName))
    ∧ Agent.runWithSkill complete none a skillName text = a.run complete text := by
  constructor
  · unfold Agent.runWithSkill
    simp only [h]
  · rfl

/-- Witness for C2: a loader holding only `"tdd"` rejects the unknown
name `"missing"` with the exact error text, leaving the agent unchanged. -/
theorem runWithSkill_spec_witness :
    Agent.runWithSkill mockComplete
        (some [("tdd", { name := "tdd", content := "Write the test first." })])
        sampleAgent "missing" "hello"
      = (sampleAgent, .error "skill not found: missing")
    ∧ Agent.runWithSkill mockComplete none sampleAgent "missing" "hello"
      = sampleAgent.run mockComplete "hello" :=
  runWithSkill_spec mockComplete [("tdd", { name := "tdd", content := "Write the test first." })]
    sampleAgent "missing" "hello" (by decide)

/-- C6: `Agent.Clone` resets history to exactly the system message (or to
nothing when no system prompt is configured), shares the original's
provider, model and system prompt, and copies the metadata map into a
fresh cell, so that writes through the clone never reach the original's
map and writes through the original never reach the clone's. -/
theorem clone_spec (h : MetaHeap) (a : Agent) (newId : String) (nonce : Nat)
    (href : a.metaRef < h.length) :
    (a.systemPrompt ≠ "" →
        (Agent.cloneIn h a newId nonce).2.messages
          = [{ role := "system", content := a.systemPrompt }])
    ∧ (a.systemPrompt = "" → (Agent.cloneIn h a newId nonce).2.messages = [])
    ∧ (Agent.cloneIn h a newId nonce).2.provider = a.provider
    ∧ (Agent.cloneIn h a newId nonce).2.model = a.model
    ∧ (Agent.cloneIn h a newId nonce).2.systemPrompt = a.systemPrompt
    ∧ metaAt (Agent.cloneIn h a newId nonce).1 (Agent.cloneIn h a newId nonce).2.metaRef
        = metaAt h a.metaRef
    ∧ metaAt (Agent.cloneIn h a newId nonce).1 a.metaRef = metaAt h a.metaRef
    ∧ (∀ k v, metaAt
          (Agent.setMetadata (Agent.cloneIn h a newId nonce).1
            (Agent.cloneIn h a newId nonce).2 k v) a.metaRef
        = metaAt (Agent.cloneIn h a newId nonce).1 a.metaRef)
    ∧ (∀ k v, metaAt
          (Agent.setMetadata (Agent.cloneIn h a newId nonce).1 a k v)
          (Agent.cloneIn h a newId nonce).2.metaRef
        = metaAt (Agent.cloneIn h a newId nonce).1
            (Agent.cloneIn h a newId nonce).2.metaRef) := by
  have hne : a.metaRef ≠ h.length := Nat.ne_of_lt href
  have hheap : (Agent.cloneIn h a newId nonce).1 = h ++ [metaAt h a.metaRef] := rfl
  have hcref : (Agent.cloneIn h a newId nonce).2.metaRef = h.length := rfl
  refine ⟨?_, ?_, rfl, rfl, rfl, ?_, ?_, ?_, ?_⟩
  · intro hs
    simp [Agent.cloneIn, metaAlloc, hs]
  · intro hs
    simp [Agent.cloneIn, metaAlloc, hs]
  · rw [hheap, hcref]
    unfold metaAt
    simp
  · rw [hheap]
    unfold metaAt
    exact List.getD_append h [metaAt h a.metaRef] [] a.metaRef href
  · intro k v
    unfold Agent.setMetadata metaSet metaAt
    rw [hcref, List.getD_eq_getD_get?, List.getD_eq_getD_get?]
    simp only [List.get?_eq_getElem?]
    rw [List.getElem?_set_ne (Ne.symm hne)]
    simp [List.getD_eq_getD_get?, List.get?_eq_getElem?]
  · intro k v
    unfold Agent.setMetadata metaSet metaAt
    rw [hcref, List.getD_eq_getD_get?, List.getD_eq_getD_get?]
    simp only [List.get?_eq_getElem?]
    rw [List.getElem?_set_ne hne]
    simp [List.getD_eq_getD_get?, List.get?_eq_getElem?]

/-- Witness for C6: cloning a concrete agent with system prompt
`"System"` and metadata `key ↦ value` gives a one-message history and a
detached metadata copy. -/
theorem clone_spec_witness :
    let h : MetaHeap := [[("key", "value")]]
    let a : Agent := { id := "original", provider := "mock", model := "test-model",
                       systemPrompt := "System", messages := [], metaRef := 0, createdAt := 0 }
    (Agent.cloneIn h a "clone-1" 7).2.messages = [{ role := "system", content := "System" }]
    ∧ metaAt (Agent.cloneIn h a "clone-1" 7).1 (Agent.cloneIn h a "clone-1" 7).2.metaRef
        = [("key", "value")]
    ∧ (∀ k v, metaAt
          (Agent.setMetadata (Agent.cloneIn h a "clone-1" 7).1
            (Agent.cloneIn h a "clone-1" 7).2 k v) a.metaRef
        = metaAt (Agent.cloneIn h a "clone-1" 7).1 a.metaRef) := by
  intro h a
  have hc := clone_spec h a "clone-1" 7 (by decide)
  exact ⟨hc.1 (by decide), hc.2.2.2.2.2.1, hc.2.2.2.2.2.2.2.1⟩

/-- The well-formed streaming payload of the runs below: a delta carrying
`"hi"` with a non-empty finish reason. -/
def donePayload : List Char :=
  "\x7b\"choices\":[\x7b\"delta\":\x7b\"content\":\"hi\"\x7d,\"finish_reason\":\"stop\"\x7d]\x7d".toList

/-- A malformed streaming payload (truncated JSON). -/
def malformedPayload : List Char := "\x7bmalformed".toList

/-- A test double for `json.Unmarshal` over the concrete SSE payloads
used in the runs below, mirroring the Go behaviour at those inputs: the
single well-formed payload decodes to its wire object, every other
input is a decode error. -/
def parseFixture (s : List Char) : Except String OpenAIWireResponse :=
  if s = donePayload then
    .ok { id := "", model := "",
          choices := [{ index := 0, messageRole := "", messageContent := "",
                        deltaRole := "", deltaContent := "hi", finishReason := "stop" }],
          usage := { promptTokens := 0, completionTokens := 0, totalTokens := 0 } }
  else
    .error ("invalid JSON: " ++ String.mk s)

/-- Counterexample for C5: the family B (OpenAI-compatible) producer
drops malformed JSON silently — a stream whose first `data: ` payload
fails to decode delivers no chunk with `Error` set and keeps going until
the `[DONE]` sentinel, contradicting the claim that both normalizers
deliver an error chunk and end the stream on a decode failure. -/
theorem openAIStream_decode_counterexample :
    parseFixture malformedPayload = .error "invalid JSON: \x7bmalformed"
    ∧ openAIStreamRun parseFixture
        [sseDataMarker ++ malformedPayload, sseDataMarker ++ doneSentinel] none
        = [{ content := "", done := true, error := none }] := by
  exact ⟨by decide, by decide⟩

/-- Helper: family A ends the stream with an error chunk at the first
decode failure, after forwarding the earlier (not-done) objects. -/
theorem ollamaStreamRun_error (pre : List OllamaWireResponse) (e : String)
    (rest : List (Except String OllamaWireResponse))
    (hpre : ∀ w ∈ pre, w.done = false) :
    ollamaStreamRun (pre.map .ok ++ .error e :: rest)
      = pre.map (fun w => { content := w.messageContent, done := w.done, error := none })
        ++ [{ content := "", done := false, error := some e }] := by
  induction pre with
  | nil => rfl
  | cons w ws ih =>
      have hw : w.done = false := hpre w (List.mem_cons_self w ws)
      have hws : ∀ x ∈ ws, x.done = false := fun x hx => hpre x (List.mem_cons_of_mem w hx)
      simp only [List.map_cons, List.cons_append, ollamaStreamRun, hw]
      simp only [Bool.false_eq_true, if_false, List.append_eq]
      rw [ih hws]

/-- C5 as amended: family A (Ollama NDJSON) delivers a chunk with `Error`
set and ends the stream at a mid-stream decode failure (decode-EOF
excepted), but family B (OpenAI-compatible SSE) silently skips a
malformed `data: ` payload and continues the stream — a decode failure
there produces no error chunk (only a scanner error does); both
producers are total functions, so neither panics. -/
theorem stream_decode_failure_spec (pre : List OllamaWireResponse) (e : String)
    (rest : List (Except String OllamaWireResponse))
    (hpre : ∀ w ∈ pre, w.done = false)
    (parse : List Char → Except String OpenAIWireResponse)
    (line : List Char) (lines : List (List Char)) (scanErr : Option String) (err : String)
    (hline : leadMatches line sseDataMarker = true)
    (hdone : ¬ line.drop sseDataMarker.length = doneSentinel)
    (hparse : parse (line.drop sseDataMarker.length) = .error err) :
    ollamaStreamRun (pre.map .ok ++ .error e :: rest)
      = pre.map (fun w => { content := w.messageContent, done := w.done, error := none })
        ++ [{ content := "", done := false, error := some e }]
    ∧ openAIStreamRun parse (line :: lines) scanErr = openAIStreamRun parse lines scanErr := by
  constructor
  · exact ollamaStreamRun_error pre e rest hpre
  · simp only [openAIStreamRun, hline, if_true, hdone, ite_false, hparse]

/-- Witness for C5 (amended): a concrete family A stream with one good
object then a decode failure yields the good chunk and an error chunk; a
concrete family B stream skips its malformed payload. -/
theorem stream_decode_failure_spec_witness :
    ollamaStreamRun
        [.ok { model := "m", messageRole := "assistant", messageContent := "he",
               done := false, doneReason := "", promptEvalCount := 0, evalCount := 0 },
         .error "unexpected end of JSON input"]
      = [{ content := "he", done := false, error := none },
         { content := "", done := false, error := some "unexpected end of JSON input" }]
    ∧ openAIStreamRun parseFixture
          [sseDataMarker ++ malformedPayload, sseDataMarker ++ doneSentinel] none
        = openAIStreamRun parseFixture [sseDataMarker ++ doneSentinel] none := by
  have h := stream_decode_failure_spec
    [{ model := "m", messageRole := "assistant", messageContent := "he",
       done := false, doneReason := "", promptEvalCount := 0, evalCount := 0 }]
    "unexpected end of JSON input" [] (by decide)
    parseFixture (sseDataMarker ++ malformedPayload) [sseDataMarker ++ doneSentinel] none
    "invalid JSON: \x7bmalformed" (by decide) (by decide) (by decide)
  exact ⟨h.1, h.2⟩

/-- C9: on a concrete wire input the family B producer delivers two
chunks with `Done = true` — one from the payload whose
`choices[0].finish_reason` is non-empty, one from the literal
`data: [DONE]` line — and `Agent.Stream`, which appends an assistant
message at every `Done = true` chunk it observes, therefore appends the
assistant message twice: `Done` is not a unique terminal marker. -/
theorem openAIStream_double_done :
    openAIStreamRun parseFixture
        [sseDataMarker ++ donePayload, sseDataMarker ++ doneSentinel] none
      = [{ content := "hi", done := true, error := none },
         { content := "", done := true, error := none }]
    ∧ (openAIStreamRun parseFixture
          [sseDataMarker ++ donePayload, sseDataMarker ++ doneSentinel] none).countP
        (fun c => c.done) = 2
    ∧ (Agent.streamRun
          (fun _ => openAIStreamRun parseFixture
            [sseDataMarker ++ donePayload, sseDataMarker ++ doneSentinel] none)
          sampleAgent "go").1.messages
      = [{ role := "user", content := "go" },
         { role := "assistant", content := "hi" },
         { role := "assistant", content := "hi" }] := by
  refine ⟨by decide, by decide, by decide⟩

/-- Helper: every reachable pool state respects the admission bound, and
the bound itself is the configured one (defaulted to 5 when
non-positive). -/
theorem poolReachable_invariant (cfg : PoolConfig) (s : PoolStateFull)
    (h : PoolReachable cfg s) :
    s.active ≤ s.maxAgents
      ∧ s.maxAgents = (if cfg.maxAgents ≤ 0 then 5 else cfg.maxAgents) := by
  induction h with
  | init =>
      refine ⟨?_, rfl⟩
      show (0 : Int) ≤ (if cfg.maxAgents ≤ 0 then 5 else cfg.maxAgents)
      by_cases hc : cfg.maxAgents ≤ 0
      · rw [if_pos hc]; omega
      · rw [if_neg hc]; omega
  | @acquire u hu ih =>
      unfold spawnAdmit
      by_cases hc : u.active ≥ u.maxAgents
      · rw [if_pos hc]; exact ih
      · rw [if_neg hc]
        refine ⟨?_, ih.2⟩
        show u.active + 1 ≤ u.maxAgents
        omega
  | @release u hu hpos ih =>
      refine ⟨?_, ih.2⟩
      show u.active - 1 ≤ u.maxAgents
      have := ih.1
      omega
  | @store u taskId r hu ih => exact ih
  | @clear u hu ih => exact ih

/-- C1: in every reachable pool state the active count never exceeds the
configured bound; a `Spawn` arriving at capacity returns immediately with
the pool-exhausted error and no `Result`, leaving the state untouched (no
queueing, no waiting); an admitted `Spawn` increments the active count
before running and, whatever the provider outcome (success, failure or
cancellation — all quantified through `complete`), has decremented it
again by the time it returns. -/
theorem pool_capacity_spec (cfg : PoolConfig) (s : PoolStateFull)
    (hreach : PoolReachable cfg s)
    (complete : CompletionRequest → Except String CompletionResponse)
    (now dur : Nat) (t : Task) :
    s.active ≤ s.maxAgents
    ∧ s.maxAgents = (if cfg.maxAgents ≤ 0 then 5 else cfg.maxAgents)
    ∧ (s.active ≥ s.maxAgents →
        poolSpawn complete now dur s t = (s, none, some (poolExhaustedMsg s.maxAgents)))
    ∧ (s.active < s.maxAgents →
        (spawnAdmit s).1.active = s.active + 1
          ∧ (poolSpawn complete now dur s t).1.active = s.active) := by
  obtain ⟨h1, h2⟩ := poolReachable_invariant cfg s hreach
  refine ⟨h1, h2, ?_, ?_⟩
  · intro hfull
    unfold poolSpawn
    rw [if_pos hfull]
  · intro hlt
    have hnot : ¬ s.active ≥ s.maxAgents := not_le.mpr hlt
    constructor
    · unfold spawnAdmit
      rw [if_neg hnot]
    · unfold poolSpawn
      rw [if_neg hnot]
      show s.active + 1 - 1 = s.active
      omega

/-- A pool configured with `max_concurrent = 2`. -/
def poolCfg2 : PoolConfig := { providerName := "mock", model := "test-model", maxAgents := 2 }

/-- The pool of `poolCfg2` with two spawns mid-flight (at capacity). -/
def poolFull2 : PoolStateFull := (spawnAdmit (spawnAdmit (PoolState.new poolCfg2)).1).1

/-- The third task arriving while the pool is at capacity. -/
def overflowTask : Task := { id := "overflow", description := "third task", message := "overflow" }

/-- Witness for C1: with two spawns mid-flight in a two-slot pool, the
bound holds and the third `Spawn` is rejected immediately with the
pool-exhausted error and no `Result`. -/
theorem pool_capacity_spec_witness :
    poolFull2.active ≤ poolFull2.maxAgents
    ∧ poolSpawn mockComplete 1 1 poolFull2 overflowTask
        = (poolFull2, none, some (poolExhaustedMsg poolFull2.maxAgents)) := by
  have h := pool_capacity_spec poolCfg2 poolFull2
    (PoolReachable.acquire (PoolReachable.acquire PoolReachable.init))
    mockComplete 1 1 overflowTask
  exact ⟨h.1, h.2.2.1 (by decide)⟩

/-- Helper: reading a list after a single write hits either the written
cell or the old content. -/
theorem get?_set_cases {α : Type} (l : List α) (j i : Nat) (a b : α)
    (h : (l.set j a).get? i = some b) :
    (j = i ∧ b = a) ∨ (j ≠ i ∧ l.get? i = some b) := by
  by_cases hij : j = i
  · subst hij
    left
    refine ⟨rfl, ?_⟩
    rw [List.get?_eq_getElem?, List.getElem?_set_self'] at h
    cases hl : l[j]? with
    | none => rw [hl] at h; simp at h
    | some x => rw [hl] at h; simp at h; exact h.symm
  · right
    refine ⟨hij, ?_⟩
    rw [List.get?_eq_getElem?, List.getElem?_set_ne hij, ← List.get?_eq_getElem?] at h
    exact h

/-- Helper: one batch step never changes the number of slots. -/
theorem batchStep_phases_length
    (complete : CompletionRequest → Except String CompletionResponse)
    (now dur : Nat) (tasks : List Task) (st : BatchState) (ev : BatchEvent) :
    (batchStep complete now dur tasks st ev).phases.length = st.phases.length := by
  cases ev with
  | start i =>
      simp only [batchStep]
      split
      · split <;> simp
      · rfl
  | finish i =>
      simp only [batchStep]
      split
      · simp
      · rfl

/-- Helper: after any schedule, the number of slots equals the number of
tasks. -/
theorem batchRun_phases_length
    (complete : CompletionRequest → Except String CompletionResponse)
    (now dur : Nat) (s : PoolStateFull) (tasks : List Task) (sched : List BatchEvent) :
    (batchRun complete now dur s tasks sched).phases.length = tasks.length := by
  suffices h : ∀ st : BatchState, st.phases.length = tasks.length →
      (sched.foldl (batchStep complete now dur tasks) st).phases.length = tasks.length by
    exact h (batchInit s tasks) (by simp [batchInit])
  induction sched with
  | nil => intro st hst; exact hst
  | cons ev evs ih =>
      intro st hst
      show (evs.foldl (batchStep complete now dur tasks)
        (batchStep complete now dur tasks st ev)).phases.length = tasks.length
      exact ih _ ((batchStep_phases_length complete now dur tasks st ev).trans hst)

/-- Helper: a written slot always belongs to its own task — `phases[i]`,
when finished with a `Result`, carries the id of `tasks[i]`. -/
theorem batchRun_slot_inv
    (complete : CompletionRequest → Except String CompletionResponse)
    (now dur : Nat) (s : PoolStateFull) (tasks : List Task) (sched : List BatchEvent) :
    ∀ i r, (batchRun complete now dur s tasks sched).phases.get? i
        = some (TaskPhase.finished (some r)) →
      ∃ t, tasks.get? i = some t ∧ r.taskId = t.id
        ∧ r.agentId = "subagent-" ++ t.id ++ "-" ++ toString now := by
  suffices h : ∀ st : BatchState,
      (∀ i r, st.phases.get? i = some (TaskPhase.finished (some r)) →
        ∃ t, tasks.get? i = some t ∧ r.taskId = t.id
          ∧ r.agentId = "subagent-" ++ t.id ++ "-" ++ toString now) →
      ∀ i r, (sched.foldl (batchStep complete now dur tasks) st).phases.get? i
          = some (TaskPhase.finished (some r)) →
        ∃ t, tasks.get? i = some t ∧ r.taskId = t.id
          ∧ r.agentId = "subagent-" ++ t.id ++ "-" ++ toString now by
    refine h (batchInit s tasks) ?_
    intro i r hir
    exfalso
    unfold batchInit at hir
    rw [List.get?_eq_getElem?, List.getElem?_map] at hir
    cases hm : tasks[i]? with
    | none => rw [hm] at hir; simp at hir
    | some u => rw [hm] at hir; simp at hir
  induction sched with
  | nil => intro st hst; exact hst
  | cons ev evs ih =>
      intro st hst
      refine ih _ ?_
      intro i r hir
      cases ev with
      | start j =>
          simp only [batchStep] at hir
          split at hir
          · split at hir
            · simp only at hir
              rcases get?_set_cases _ _ _ _ _ hir with ⟨_, hb⟩ | ⟨_, hold⟩
              · exact absurd hb (by simp)
              · exact hst i r hold
            · simp only at hir
              rcases get?_set_cases _ _ _ _ _ hir with ⟨_, hb⟩ | ⟨_, hold⟩
              · exact absurd hb (by simp)
              · exact hst i r hold
          · exact hst i r hir
      | finish j =>
          simp only [batchStep] at hir
          split at hir
          · rename_i u hph htk
            simp only at hir
            rcases get?_set_cases _ _ _ _ _ hir with ⟨hij, hb⟩ | ⟨_, hold⟩
            · subst hij
              have hr : r = runTask complete st.pool u now dur := by
                simpa using hb
              exact ⟨u, htk, by rw [hr]; rfl, by rw [hr]; rfl⟩
            · exact hst i r hold
          · exact hst i r hir

/-- C3 as amended: for M tasks and every schedule, `SpawnBatch`'s slice
has exactly M slots and a written slot `i` always holds the result of
task `i` (input order is preserved regardless of completion order or
per-task failure); a goroutine that reaches its admission check while
the pool is at capacity finishes immediately — without blocking — but
its slot receives the nil result `Spawn` returned, not a pool-exhausted
`Result`. -/
theorem spawnBatch_spec
    (complete : CompletionRequest → Except String CompletionResponse)
    (now dur : Nat) (s : PoolStateFull) (tasks : List Task) (sched : List BatchEvent) :
    (batchSlots (batchRun complete now dur s tasks sched)).length = tasks.length
    ∧ (∀ i r, (batchSlots (batchRun complete now dur s tasks sched)).get? i
          = some (some r) →
        ∃ t, tasks.get? i = some t ∧ r.taskId = t.id
          ∧ r.agentId = "subagent-" ++ t.id ++ "-" ++ toString now)
    ∧ (∀ st : BatchState, ∀ i,
        st.phases.get? i = some TaskPhase.notStarted →
        st.pool.active ≥ st.pool.maxAgents →
        (∃ u, tasks.get? i = some u) →
        batchStep complete now dur tasks st (.start i)
          = { st with phases := st.phases.set i (TaskPhase.finished none) }) := by
  refine ⟨?_, ?_, ?_⟩
  · unfold batchSlots
    rw [List.length_map]
    exact batchRun_phases_length complete now dur s tasks sched
  · intro i r hir
    unfold batchSlots at hir
    rw [List.get?_eq_getElem?, List.getElem?_map] at hir
    cases hp : (batchRun complete now dur s tasks sched).phases[i]? with
    | none => rw [hp] at hir; simp at hir
    | some ph =>
        rw [hp] at hir
        cases ph with
        | notStarted => simp at hir
        | running => simp at hir
        | finished slot =>
            simp at hir
            refine batchRun_slot_inv complete now dur s tasks sched i r ?_
            rw [List.get?_eq_getElem?, hp, hir]
  · intro st i hph hcap hu
    obtain ⟨u, hu⟩ := hu
    simp only [batchStep, hph, hu]
    rw [if_pos hcap]

/-- A pool of capacity 1 handed a two-task batch. -/
def batchPool1 : PoolStateFull :=
  PoolState.new { providerName := "mock", model := "test-model", maxAgents := 1 }

/-- The two tasks of the concrete batch runs. -/
def batchTasks : List Task :=
  [{ id := "t1", description := "first", message := "a" },
   { id := "t2", description := "second", message := "b" }]

/-- Counterexample for C3: with capacity 1, when the second goroutine
reaches its admission check while the first task is mid-flight, the batch
joins with both slots written — but the rejected task's slot holds the
nil result (`none`), not a pool-exhausted `Result`, and no result for it
is stored in the pool's results map. -/
theorem spawnBatch_rejected_counterexample :
    (batchSlots (batchRun mockComplete 1 1 batchPool1 batchTasks
        [.start 0, .start 1, .finish 0])).get? 1 = some none
    ∧ ((batchRun mockComplete 1 1 batchPool1 batchTasks
        [.start 0, .start 1, .finish 0]).phases.all fun ph =>
          match ph with
          | TaskPhase.finished _ => true
          | _ => false) = true
    ∧ mapLookup (batchRun mockComplete 1 1 batchPool1 batchTasks
        [.start 0, .start 1, .finish 0]).pool.results "t2" = none := by
  refine ⟨by decide, by decide, by decide⟩

/-- Witness for C3 (amended): the concrete capacity-1 two-task schedule
returns two slots, and a concrete at-capacity admission check finishes
its goroutine immediately with a nil slot. -/
theorem spawnBatch_spec_witness :
    (batchSlots (batchRun mockComplete 1 1 batchPool1 batchTasks
        [.start 0, .start 1, .finish 0])).length = 2
    ∧ batchStep mockComplete 1 1 batchTasks
          (batchRun mockComplete 1 1 batchPool1 batchTasks [.start 0]) (.start 1)
        = { batchRun mockComplete 1 1 batchPool1 batchTasks [.start 0] with
            phases := (batchRun mockComplete 1 1 batchPool1 batchTasks
              [.start 0]).phases.set 1 (TaskPhase.finished none) } := by
  have h := spawnBatch_spec mockComplete 1 1 batchPool1 batchTasks
    [.start 0, .start 1, .finish 0]
  refine ⟨h.1.trans (by decide), ?_⟩
  exact (spawnBatch_spec mockComplete 1 1 batchPool1 batchTasks [.start 0, .start 1,
      .finish 0]).2.2
    (batchRun mockComplete 1 1 batchPool1 batchTasks [.start 0]) 1
    (by decide) (by decide)
    ⟨{ id := "t2", description := "second", message := "b" }, by decide⟩

end AgentFlow
